import Mathlib

/- A shallow embedding of src/main.py, an LLM-driven code deployment
   webhook service.  Pure data and functions mirror the Python source.
   External effects (model responses, GitHub API results, the clock,
   random identifiers, callback POST outcomes) are supplied by an
   environment record, and every outbound call the handler makes is
   recorded in an explicit call trace. -/

/-- A file set: mapping from relative file path to text content, as a
Python-style insertion-ordered dictionary (association list with unique
keys; assignment replaces in place). -/
abbrev FileSet := List (String × String)

/-- Dictionary lookup (first matching key), mirroring Python dict access. -/
def alGet {κ α : Type} [DecidableEq κ] : List (κ × α) → κ → Option α
  | [], _ => none
  | (k1, v1) :: rest, k => if k = k1 then some v1 else alGet rest k

/-- Dictionary assignment: replace the value at the key in place, or append
a new entry at the end, mirroring Python dict assignment. -/
def alSet {κ α : Type} [DecidableEq κ] : List (κ × α) → κ → α → List (κ × α)
  | [], k, v => [(k, v)]
  | (k1, v1) :: rest, k, v =>
    if k = k1 then (k, v) :: rest else (k1, v1) :: alSet rest k v

/-- Merge updates into a base dictionary, one assignment per entry, in
order: the Python loop for k, v in upd.items(): base[k] = v. -/
def overlay {κ α : Type} [DecidableEq κ] (base upd : List (κ × α)) : List (κ × α) :=
  upd.foldl (fun acc kv => alSet acc kv.1 kv.2) base

/-- Python str.strip(): drop whitespace from both ends (character lists). -/
def pyStrip (l : List Char) : List Char :=
  ((l.dropWhile Char.isWhitespace).reverse.dropWhile Char.isWhitespace).reverse

/-- Split a character list at every occurrence of a separator character,
mirroring Python str.split(sep) with a one-character separator. -/
def splitOnChar (sep : Char) : List Char → List (List Char)
  | [] => [[]]
  | c :: cs =>
    match splitOnChar sep cs with
    | [] => [[c]]
    | g :: gs => if c = sep then [] :: g :: gs else (c :: g) :: gs

/-- Python str.rstrip(sep) with a one-character separator. -/
def rstripChar (sep : Char) (l : List Char) : List Char :=
  (l.reverse.dropWhile (fun c => c == sep)).reverse

/-- Python str.endswith(suffix) on character lists. -/
def endsWithL (suffix : String) (l : List Char) : Bool :=
  suffix.data.isSuffixOf l

/-- Python line.startswith(" "). -/
def startsWithSpaceL (l : List Char) : Bool :=
  match l with
  | c :: _ => c == ' '
  | [] => false

/-- The filename-line test of the response parser in
call_llm_generate_code: the stripped line ends in .html, .js or .css, and
the raw line is not indented by a space. -/
def isFilenameLineL (line : List Char) : Bool :=
  (endsWithL ".html" (pyStrip line) || endsWithL ".js" (pyStrip line)
      || endsWithL ".css" (pyStrip line))
    && !(startsWithSpaceL line)

/-- Python "\n".join(lines). -/
def joinNl (lines : List (List Char)) : List Char :=
  List.intercalate ['\n'] lines

/-- The line-scanning loop of call_llm_generate_code: a filename line
commits the current buffer and opens a new file section; any other line
accumulates into the buffer; at the end the pending section is committed. -/
def parseLoop : List (List Char) → Option (List Char) → List (List Char) → FileSet → FileSet
  | [], current, buffer, files =>
    match current with
    | some f => alSet files (String.mk f) (String.mk (pyStrip (joinNl buffer)))
    | none => files
  | line :: rest, current, buffer, files =>
    if isFilenameLineL line then
      match current with
      | some f =>
        parseLoop rest (some (pyStrip line)) []
          (alSet files (String.mk f) (String.mk (pyStrip (joinNl buffer))))
      | none => parseLoop rest (some (pyStrip line)) [] files
    else
      parseLoop rest current (buffer ++ [line]) files

/-- The single-file fallback: the whole response wrapped in boilerplate. -/
def wrapHtml (code_text : List Char) : String :=
  String.mk ("<!DOCTYPE html>\n<html><body><pre>".data ++ code_text
    ++ "</pre></body></html>".data)

/-- call_llm_generate_code from src/main.py.  The brief, checks, existing
files and round number shape only the prompt sent to the model, so the
model's raw response text is an input here.  The response is stripped and
scanned into files; when no filename line was recognized the whole
response becomes a single wrapped index.html; attachments are merged
last. -/
def call_llm_generate_code (brief : String) (checks : List String) (attachments : FileSet)
    (existing_files : FileSet) (round_num : Nat) (response : String) : FileSet :=
  let code_text := pyStrip response.data
  let files := parseLoop (splitOnChar '\n' code_text) none [] []
  let files := if files = [] then [("index.html", wrapHtml code_text)] else files
  overlay files attachments

/-- safe_repo_name from src/main.py: sanitize the task id (non-alphanumeric
characters become dashes), cap at 50 characters, default to repo when
empty, and append the timestamp. -/
def safe_repo_name (task_id : String) (ts : String) : String :=
  let name := (task_id.data.map (fun c => if c.isAlphanum then c else '-')).take 50
  let name := if name = [] then "repo".data else name
  String.mk (name ++ '-' :: ts.data)

/-- Recovering the repository name from its stored address on rounds 2 and
later: repo_url.rstrip("/").split("/")[-1]. -/
def nameOfUrl (url : String) : String :=
  String.mk ((splitOnChar '/' (rstripChar '/' url.data)).getLastD [])

/-- The environment: configured values and all responses of the external
world (model, GitHub, clock, random identifiers), indexed by the position
of the round being processed within one request. -/
structure Env where
  secret_key : String
  login : String
  llmResult : Nat → Except String String
  timestamp : Nat → String
  nowIso : Nat → String
  commitSha : Nat → Option String
  remoteHas : Nat → String → Bool
  repoErr : Nat → Option String
  emailHex : String
  taskHex : String

/-- One entry of the in-memory task_repos store. -/
structure RepoRecord where
  repo_url : String
  commit_sha : String
  pages_url : String
  timestamp : String
  files : FileSet
deriving Repr, DecidableEq

/-- The in-memory store task_repos, keyed by (email, task). -/
abbrev Store := List ((String × String) × RepoRecord)

/-- What create_or_update_repo hands back to the caller. -/
structure RepoOut where
  repo_url : String
  pages_url : String
  commit_sha : String
deriving Repr, DecidableEq

/-- The JSON payload POSTed to the callback URL. -/
structure Payload where
  email : String
  task : String
  round : Nat
  nonce : String
  repo_url : String
  pages_url : String
  commit_sha : String
deriving Repr, DecidableEq

/-- One outbound call made while handling a request. -/
inductive Call where
  | llm (brief : String) (checks : List String) (attachments : FileSet)
      (existing : FileSet) (round_num : Nat) : Call
  | createRepo (name : String) : Call
  | createFile (path : String) : Call
  | updateFile (path : String) : Call
  | pages (name : String) : Call
  | notify (url : String) (payload : Payload) : Call
deriving Repr, DecidableEq

/-- Failures of create_or_update_repo: the explicit 404 for a missing
round-1 baseline, or an error raised by a remote GitHub operation. -/
inductive RepoFail where
  | notFound : RepoFail
  | external (msg : String) : RepoFail
deriving Repr, DecidableEq

/-- Shared tail of create_or_update_repo: request pages hosting (best
effort), compute the pages URL and latest commit, and overwrite the store
entry for the identity. -/
def finishRepo (env : Env) (i : Nat) (store : Store) (key : String × String)
    (repo_name : String) (stored_files : FileSet) (calls : List Call) :
    Except RepoFail (RepoOut × Store × List Call) :=
  let html_url := "https://github.com/" ++ env.login ++ "/" ++ repo_name
  let pages_url := "https://" ++ env.login ++ ".github.io/" ++ repo_name ++ "/"
  let commit_sha := (env.commitSha i).getD "unknown"
  let rcd : RepoRecord := ⟨html_url, commit_sha, pages_url, env.nowIso i, stored_files⟩
  .ok (⟨html_url, pages_url, commit_sha⟩, alSet store key rcd, calls ++ [Call.pages repo_name])

/-- create_or_update_repo from src/main.py.  Round 1 creates a fresh
repository from a sanitized time-stamped name and records the file set as
the baseline; later rounds look up the stored record (404 when absent),
update or create each file remotely, and merge the new file set over the
stored baseline.  A some value of env.repoErr models a remote GitHub
operation raising at this call. -/
def create_or_update_repo (env : Env) (i : Nat) (store : Store) (email task : String)
    (round_num : Nat) (code_files : FileSet) : Except RepoFail (RepoOut × Store × List Call) :=
  let key := (email, task)
  if round_num = 1 then
    match env.repoErr i with
    | some m => .error (RepoFail.external m)
    | none =>
      let repo_name := safe_repo_name task (env.timestamp i)
      let calls := Call.createRepo repo_name ::
        (code_files.map (fun kv => Call.createFile kv.1) ++ [Call.createFile "README.md"])
      finishRepo env i store key repo_name code_files calls
  else
    match alGet store key with
    | none => .error RepoFail.notFound
    | some prev =>
      match env.repoErr i with
      | some m => .error (RepoFail.external m)
      | none =>
        let repo_name := nameOfUrl prev.repo_url
        let calls := code_files.map (fun kv =>
          if env.remoteHas i kv.1 then Call.updateFile kv.1 else Call.createFile kv.1)
        finishRepo env i store key repo_name (overlay prev.files code_files) calls

/-- notify_evaluation from src/main.py: the callback POST outcome is the
response status, or none when the request raised an exception; exceptions
are swallowed and the function reports whether the status equals 200. -/
def notify_evaluation (resp : Option Nat) : Bool :=
  match resp with
  | some status => status == 200
  | none => false

/-- Modelled from the spec wording: an HTTP success status in the usual
sense, the 2xx range.  Declared only to compare the spec's notion of
success with the code's. -/
def httpSuccessSpec (status : Nat) : Bool :=
  200 ≤ status && status < 300

/-- The parsed JSON request body, with the fields handle_task reads. -/
structure ReqData where
  secret : Option String
  email : Option String
  task : Option String
  round : Int
  nonce : Option String
  evaluation_url : Option String
  brief : String
  checks : List String
  attachments : FileSet
  round2 : List (String × List String)
deriving Repr, DecidableEq

/-- Python falsy-or resolution, as in data.get(k) or fallback. -/
def pyOr (v : Option String) (fallback : String) : String :=
  match v with
  | some s => if s = "" then fallback else s
  | none => fallback

/-- email resolution, with the random fallback identifier from the
environment. -/
def resolveEmail (env : Env) (data : ReqData) : String :=
  pyOr data.email ("user-" ++ env.emailHex)

/-- task resolution, with the random fallback identifier from the
environment. -/
def resolveTask (env : Env) (data : ReqData) : String :=
  pyOr data.task ("task-" ++ env.taskHex)

/-- task_repos.get(key, empty dict).get("files", empty dict). -/
def filesAt (store : Store) (key : String × String) : FileSet :=
  match alGet store key with
  | some rcd => rcd.files
  | none => []

/-- One entry of the response's results list. -/
structure RoundResult where
  round : Nat
  repo_url : String
  pages_url : String
  commit_sha : String
deriving Repr, DecidableEq

/-- How a repository failure prints inside the wrapped 500 detail. -/
def repoFailMsg : RepoFail → String
  | RepoFail.notFound => "404: Round 1 repo not found"
  | RepoFail.external m => m

/-- The callback notification POST made at the end of a round, when an
evaluation URL was supplied (the source ignores its boolean result). -/
def ncallsOf (evalUrl : Option String) (p : Payload) : List Call :=
  match evalUrl with
  | some u => [Call.notify u p]
  | none => []

/-- The per-round loop of handle_task: generate, reconcile, refresh the
accumulated file state from the store, append the round result, and
notify when a callback URL was supplied.  A failing round aborts the whole
request, keeping the store and trace as already produced. -/
def processRounds (env : Env) (att : FileSet) (email task nonce : String)
    (evalUrl : Option String) :
    List (String × List String) → Nat → FileSet → Store → List Call → List RoundResult →
    Except (Nat × String) (List RoundResult) × Store × List Call
  | [], _, _, store, calls, acc => (.ok acc, store, calls)
  | (brief, checks) :: rest, i, existing, store, calls, acc =>
    let rn := i + 1
    match env.llmResult i with
    | .error m =>
      (.error (500, "LLM generation failed: " ++ m), store,
        calls ++ [Call.llm brief checks att existing rn])
    | .ok response =>
      let code_files := call_llm_generate_code brief checks att existing rn response
      match create_or_update_repo env i store email task rn code_files with
      | .error e =>
        (.error (500, "GitHub operation failed: " ++ repoFailMsg e), store,
          calls ++ [Call.llm brief checks att existing rn])
      | .ok (out, store2, rcalls) =>
        processRounds env att email task nonce evalUrl rest (i + 1)
          (filesAt store2 (email, task)) store2
          (calls ++ Call.llm brief checks att existing rn ::
            (rcalls ++ ncallsOf evalUrl
              ⟨email, task, rn, nonce, out.repo_url, out.pages_url, out.commit_sha⟩))
          (acc ++ [⟨rn, out.repo_url, out.pages_url, out.commit_sha⟩])

/-- Replace the request's top-level round field. -/
def setRound (data : ReqData) (n : Int) : ReqData := { data with round := n }

/-- The callback URL, when supplied and truthy. -/
def evalUrlOf (data : ReqData) : Option String :=
  match data.evaluation_url with
  | some u => if u = "" then none else some u
  | none => none

/-- handle_task from src/main.py: secret check, identity resolution, the
ordered list of rounds (top-level brief first, then each round2 entry),
the per-round loop, and the final response.  The parsed round field is
bound and, exactly as in the source, never used again. -/
def handle_task (env : Env) (store : Store) (data : ReqData) :
    Except (Nat × String) (List RoundResult) × Store × List Call :=
  if data.secret = some env.secret_key then
    let email := resolveEmail env data
    let task := resolveTask env data
    let round_num := data.round
    let nonce := pyOr data.nonce ""
    let evalUrl := evalUrlOf data
    let briefs_rounds := (data.brief, data.checks) :: data.round2
    let existing_files := filesAt store (email, task)
    processRounds env data.attachments email task nonce evalUrl
      briefs_rounds 0 existing_files store [] []
  else
    (.error (403, "Invalid secret key"), store, [])

/-- The round numbers s, s+1, ..., s+n-1. -/
def natRange (s n : Nat) : List Nat :=
  match n with
  | 0 => []
  | m + 1 => s :: natRange (s + 1) m

/-- Project an llm trace entry to its attachments and round number. -/
def llmAttRound : Call → Option (FileSet × Nat)
  | Call.llm _ _ a _ rn => some (a, rn)
  | _ => none

/-- Project an llm trace entry to its round number and existing files. -/
def llmExisting : Call → Option (Nat × FileSet)
  | Call.llm _ _ _ ex rn => some (rn, ex)
  | _ => none

/-- A concrete environment for witnesses: fixed secret, login, model
response, clock and commit data, all remote operations succeeding. -/
def exEnv : Env where
  secret_key := "s"
  login := "me"
  llmResult := fun _ => .ok "index.html\n<h1>hi</h1>"
  timestamp := fun _ => "20250101000000"
  nowIso := fun _ => "2025-01-01T00:00:00"
  commitSha := fun _ => some "abc123"
  remoteHas := fun _ _ => true
  repoErr := fun _ => none
  emailHex := "aaaaaa"
  taskHex := "bbbbbb"

/-- The same environment at a later wall-clock time (a later timestamp),
as seen by a second request. -/
def exEnv2 : Env := { exEnv with timestamp := fun _ => "20250101000500" }

/-- A concrete round-1 request. -/
def exData1 : ReqData where
  secret := some "s"
  email := some "a@x.com"
  task := some "t1"
  round := 1
  nonce := none
  evaluation_url := none
  brief := "calculator app"
  checks := []
  attachments := []
  round2 := []

/-- A second request for the same identity carrying round 2 and a new
top-level brief, as in the spec scenario. -/
def exData2 : ReqData := { exData1 with round := 2, brief := "fix the rounding bug" }

/-- The store left behind by the first request. -/
def exStore1 : Store := (handle_task exEnv [] exData1).2.1

/-- A request whose second round travels in the round2 list of the same
request, with a callback URL supplied. -/
def exDataR2 : ReqData :=
  { exData1 with
      round2 := [("fix the bug", [])],
      evaluation_url := some "https://cb.example/notify" }

/-- A two-round request with a top-level attachment. -/
def exDataAtt : ReqData :=
  { exData1 with
      attachments := [("data.json", "42")],
      round2 := [("fix the bug", [])] }

/-- A model response that already looks like a complete document. -/
def fullDoc : String := "<!DOCTYPE html>\n<html><body>Hello</body></html>"

theorem alGet_alSet_self {κ α : Type} [DecidableEq κ] (l : List (κ × α)) (k : κ) (v : α) :
    alGet (alSet l k v) k = some v := by
  induction l with
  | nil => simp [alGet, alSet]
  | cons kv rest ih =>
    obtain ⟨k1, v1⟩ := kv
    by_cases h : k = k1
    · simp [alGet, alSet, h]
    · simp [alGet, alSet, h, ih]

theorem alGet_alSet_ne {κ α : Type} [DecidableEq κ] (l : List (κ × α)) (k k1 : κ) (v : α)
    (h : k ≠ k1) : alGet (alSet l k1 v) k = alGet l k := by
  induction l with
  | nil => simp [alGet, alSet, h]
  | cons kv rest ih =>
    obtain ⟨k2, v2⟩ := kv
    by_cases h2 : k1 = k2
    · subst h2
      simp [alGet, alSet, h]
    · by_cases h3 : k = k2
      · simp [alGet, alSet, h2, h3]
      · simp [alGet, alSet, h2, h3, ih]

theorem alSet_of_alGet_eq {κ α : Type} [DecidableEq κ] (l : List (κ × α)) (k : κ) (v : α)
    (h : alGet l k = some v) : alSet l k v = l := by
  induction l with
  | nil => simp [alGet] at h
  | cons kv rest ih =>
    obtain ⟨k1, v1⟩ := kv
    by_cases h1 : k = k1
    · subst h1
      simp [alGet] at h
      simp [alSet, h]
    · simp [alGet, h1] at h
      simp [alSet, h1, ih h]

theorem alGet_mem {κ α : Type} [DecidableEq κ] (l : List (κ × α)) (k : κ) (v : α)
    (h : alGet l k = some v) : (k, v) ∈ l := by
  induction l with
  | nil => simp [alGet] at h
  | cons kv rest ih =>
    obtain ⟨k1, v1⟩ := kv
    by_cases h1 : k = k1
    · subst h1
      simp [alGet] at h
      simp [h]
    · simp [alGet, h1] at h
      exact List.mem_cons_of_mem _ (ih h)

theorem alGet_overlay_not_mem {κ α : Type} [DecidableEq κ] (u b : List (κ × α)) (k : κ)
    (h : k ∉ u.map Prod.fst) : alGet (overlay b u) k = alGet b k := by
  induction u generalizing b with
  | nil => rfl
  | cons kv rest ih =>
    obtain ⟨k1, v1⟩ := kv
    simp only [List.map_cons, List.mem_cons] at h
    push_neg at h
    have step : overlay b ((k1, v1) :: rest) = overlay (alSet b k1 v1) rest := rfl
    rw [step, ih _ h.2, alGet_alSet_ne _ _ _ _ h.1]

theorem alGet_overlay_of_mem {κ α : Type} [DecidableEq κ] (u b : List (κ × α)) (k : κ) (v : α)
    (hnd : (u.map Prod.fst).Nodup) (hm : (k, v) ∈ u) :
    alGet (overlay b u) k = some v := by
  induction u generalizing b with
  | nil => simp at hm
  | cons kv rest ih =>
    obtain ⟨k1, v1⟩ := kv
    simp only [List.map_cons, List.nodup_cons] at hnd
    have step : overlay b ((k1, v1) :: rest) = overlay (alSet b k1 v1) rest := rfl
    rcases List.mem_cons.mp hm with heq | hmem
    · have hk : k = k1 := congrArg Prod.fst heq
      have hv : v = v1 := congrArg Prod.snd heq
      subst hk
      subst hv
      rw [step, alGet_overlay_not_mem _ _ _ hnd.1, alGet_alSet_self]
    · rw [step]
      exact ih _ hnd.2 hmem

theorem overlay_self {κ α : Type} [DecidableEq κ] (u b : List (κ × α))
    (h : ∀ kv ∈ u, alGet b kv.1 = some kv.2) : overlay b u = b := by
  induction u with
  | nil => rfl
  | cons kv rest ih =>
    obtain ⟨k1, v1⟩ := kv
    have step : overlay b ((k1, v1) :: rest) = overlay (alSet b k1 v1) rest := rfl
    rw [step, alSet_of_alGet_eq _ _ _ (h (k1, v1) (List.mem_cons_self _ _))]
    exact ih (fun kv hkv => h kv (List.mem_cons_of_mem _ hkv))

theorem overlay_overlay_self {κ α : Type} [DecidableEq κ] (u b : List (κ × α))
    (hnd : (u.map Prod.fst).Nodup) : overlay (overlay b u) u = overlay b u :=
  overlay_self u (overlay b u)
    (fun kv hkv => alGet_overlay_of_mem u b kv.1 kv.2 hnd hkv)

theorem splitOnChar_ne_nil (sep : Char) (l : List Char) : splitOnChar sep l ≠ [] := by
  induction l with
  | nil => simp [splitOnChar]
  | cons c cs ih =>
    cases h : splitOnChar sep cs with
    | nil => exact absurd h ih
    | cons g gs =>
      by_cases hc : c = sep <;> simp [splitOnChar, h, hc]

theorem splitOnChar_no_sep (sep : Char) (l : List Char) (h : sep ∉ l) :
    splitOnChar sep l = [l] := by
  induction l with
  | nil => rfl
  | cons c cs ih =>
    simp only [List.mem_cons] at h
    push_neg at h
    have hcs := ih h.2
    have hc : c ≠ sep := fun hh => h.1 hh.symm
    simp [splitOnChar, hcs, hc]

theorem splitOnChar_append_length (sep : Char) (A B : List Char) :
    2 ≤ (splitOnChar sep (A ++ sep :: B)).length := by
  induction A with
  | nil =>
    cases h : splitOnChar sep B with
    | nil => exact absurd h (splitOnChar_ne_nil sep B)
    | cons g gs =>
      have hstep : splitOnChar sep ([] ++ sep :: B) = [] :: g :: gs := by
        simp [splitOnChar, h]
      rw [hstep]
      simp
  | cons c A ih =>
    cases h : splitOnChar sep (A ++ sep :: B) with
    | nil => exact absurd h (splitOnChar_ne_nil sep _)
    | cons g gs =>
      rw [h] at ih
      simp only [List.length_cons] at ih
      by_cases hc : c = sep
      · have hstep : splitOnChar sep (c :: A ++ sep :: B) = [] :: g :: gs := by
          simp [splitOnChar, List.cons_append, h, hc]
        rw [hstep]
        simp
      · have hstep : splitOnChar sep (c :: A ++ sep :: B) = (c :: g) :: gs := by
          simp [splitOnChar, List.cons_append, h, hc]
        rw [hstep]
        simp only [List.length_cons]
        omega

theorem getLastD_irrel {α : Type} (l : List α) (a b : α) (h : l ≠ []) :
    l.getLastD a = l.getLastD b := by
  cases l with
  | nil => exact absurd rfl h
  | cons x xs => rw [List.getLastD_cons, List.getLastD_cons]

theorem getLastD_splitOnChar_append (sep : Char) (A B : List Char) :
    (splitOnChar sep (A ++ sep :: B)).getLastD [] = (splitOnChar sep B).getLastD [] := by
  induction A with
  | nil =>
    cases h : splitOnChar sep B with
    | nil => exact absurd h (splitOnChar_ne_nil sep B)
    | cons g gs =>
      have hstep : splitOnChar sep ([] ++ sep :: B) = [] :: g :: gs := by
        simp [splitOnChar, h]
      rw [hstep, List.getLastD_cons]
  | cons c A ih =>
    cases h : splitOnChar sep (A ++ sep :: B) with
    | nil => exact absurd h (splitOnChar_ne_nil sep _)
    | cons g gs =>
      have hgs : gs ≠ [] := by
        have hlen := splitOnChar_append_length sep A B
        rw [h] at hlen
        simp only [List.length_cons] at hlen
        intro hnil
        rw [hnil] at hlen
        simp at hlen
      rw [h] at ih
      by_cases hc : c = sep
      · have hstep : splitOnChar sep (c :: A ++ sep :: B) = [] :: g :: gs := by
          simp [splitOnChar, List.cons_append, h, hc]
        rw [hstep, List.getLastD_cons, ← List.getLastD_cons g, ← ih]
        rw [List.getLastD_cons]
      · have hstep : splitOnChar sep (c :: A ++ sep :: B) = (c :: g) :: gs := by
          simp [splitOnChar, List.cons_append, h, hc]
        rw [hstep, List.getLastD_cons, getLastD_irrel gs (c :: g) g hgs, ← ih,
          List.getLastD_cons]

theorem rstripChar_concat (sep c : Char) (xs : List Char) (h : c ≠ sep) :
    rstripChar sep (xs ++ [c]) = xs ++ [c] := by
  have hb : (c == sep) = false := by simp [h]
  simp [rstripChar, List.dropWhile_cons, hb]

theorem strData_append (s t : String) : (s ++ t).data = s.data ++ t.data := by
  cases s
  cases t
  rfl

theorem nameOfUrl_roundtrip (L : String) (nm : List Char)
    (h1 : nm ≠ []) (h2 : ('/' : Char) ∉ nm) :
    nameOfUrl ("https://github.com/" ++ L ++ "/" ++ String.mk nm) = String.mk nm := by
  obtain ⟨nm0, c, rfl⟩ : ∃ nm0 c, nm = nm0 ++ [c] := by
    rcases List.eq_nil_or_concat nm with hnil | ⟨nm0, c, hcat⟩
    · exact absurd hnil h1
    · exact ⟨nm0, c, by simpa [List.concat_eq_append] using hcat⟩
  have hc : c ≠ '/' := by
    intro hh
    exact h2 (hh ▸ List.mem_append_right nm0 (List.mem_singleton.mpr rfl))
  have hslash : ("/" : String).data = ['/'] := rfl
  have hmk : (String.mk (nm0 ++ [c])).data = nm0 ++ [c] := rfl
  have hdata : ("https://github.com/" ++ L ++ "/" ++ String.mk (nm0 ++ [c])).data
      = ("https://github.com/".data ++ L.data ++ ('/' :: nm0)) ++ [c] := by
    rw [strData_append, strData_append, strData_append, hslash, hmk]
    simp [List.append_assoc]
  unfold nameOfUrl
  rw [hdata, rstripChar_concat _ _ _ hc]
  have hre : ("https://github.com/".data ++ L.data ++ ('/' :: nm0)) ++ [c]
      = ("https://github.com/".data ++ L.data) ++ ('/' :: (nm0 ++ [c])) := by
    simp [List.append_assoc]
  rw [hre, getLastD_splitOnChar_append, splitOnChar_no_sep _ _ h2]
  rfl

theorem safe_repo_name_data (t ts : String) :
    (safe_repo_name t ts).data =
      (if (t.data.map (fun c => if c.isAlphanum then c else '-')).take 50 = []
        then "repo".data
        else (t.data.map (fun c => if c.isAlphanum then c else '-')).take 50)
      ++ '-' :: ts.data := rfl

theorem safe_repo_name_ne_nil (t ts : String) : (safe_repo_name t ts).data ≠ [] := by
  rw [safe_repo_name_data]
  simp

theorem safe_repo_name_no_slash (t ts : String) (hts : ('/' : Char) ∉ ts.data) :
    ('/' : Char) ∉ (safe_repo_name t ts).data := by
  intro hmem
  rw [safe_repo_name_data] at hmem
  rcases List.mem_append.mp hmem with hn | hrest
  · by_cases hnil : (t.data.map (fun c => if c.isAlphanum then c else '-')).take 50 = []
    · rw [if_pos hnil] at hn
      exact absurd hn (by decide)
    · rw [if_neg hnil] at hn
      obtain ⟨c, _, heq⟩ := List.mem_map.mp (List.mem_of_mem_take hn)
      by_cases ha : c.isAlphanum
      · rw [if_pos ha] at heq
        rw [heq] at ha
        exact absurd ha (by decide)
      · rw [if_neg ha] at heq
        exact absurd heq (by decide)
  · rcases List.mem_cons.mp hrest with h1 | h2
    · exact absurd h1 (by decide)
    · exact hts h2

theorem parseLoop_no_filename (lines : List (List Char))
    (h : ∀ l ∈ lines, isFilenameLineL l = false) :
    ∀ (buffer : List (List Char)) (files : FileSet),
      parseLoop lines none buffer files = files := by
  induction lines with
  | nil => intro buffer files; rfl
  | cons line rest ih =>
    intro buffer files
    have hline := h line (List.mem_cons_self _ _)
    have hrest : ∀ l ∈ rest, isFilenameLineL l = false :=
      fun l hl => h l (List.mem_cons_of_mem _ hl)
    rw [parseLoop, hline]
    simp only [Bool.false_eq_true, if_false]
    exact ih hrest _ _

theorem call_llm_no_filename (brief : String) (checks : List String) (attachments : FileSet)
    (existing_files : FileSet) (round_num : Nat) (response : String)
    (h : ∀ l ∈ splitOnChar '\n' (pyStrip response.data), isFilenameLineL l = false) :
    call_llm_generate_code brief checks attachments existing_files round_num response
      = overlay [("index.html", wrapHtml (pyStrip response.data))] attachments := by
  simp only [call_llm_generate_code]
  rw [parseLoop_no_filename _ h]
  simp

theorem finishRepo_eq (env : Env) (i : Nat) (store : Store) (key : String × String)
    (nm : String) (stored : FileSet) (calls : List Call) :
    finishRepo env i store key nm stored calls
      = .ok (⟨"https://github.com/" ++ env.login ++ "/" ++ nm,
              "https://" ++ env.login ++ ".github.io/" ++ nm ++ "/",
              (env.commitSha i).getD "unknown"⟩,
             alSet store key
               ⟨"https://github.com/" ++ env.login ++ "/" ++ nm,
                (env.commitSha i).getD "unknown",
                "https://" ++ env.login ++ ".github.io/" ++ nm ++ "/",
                env.nowIso i, stored⟩,
             calls ++ [Call.pages nm]) := rfl

theorem create_or_update_round1_eq (env : Env) (i : Nat) (store : Store) (email task : String)
    (cf : FileSet) (hre : env.repoErr i = none) :
    create_or_update_repo env i store email task 1 cf
      = finishRepo env i store (email, task) (safe_repo_name task (env.timestamp i)) cf
          (Call.createRepo (safe_repo_name task (env.timestamp i)) ::
            (cf.map (fun kv => Call.createFile kv.1) ++ [Call.createFile "README.md"])) := by
  simp only [create_or_update_repo, hre]
  rw [if_pos trivial]

theorem create_or_update_later_eq (env : Env) (i : Nat) (store : Store) (email task : String)
    (rn : Nat) (cf : FileSet) (prev : RepoRecord) (hrn : rn ≠ 1)
    (hprev : alGet store (email, task) = some prev) (hre : env.repoErr i = none) :
    create_or_update_repo env i store email task rn cf
      = finishRepo env i store (email, task) (nameOfUrl prev.repo_url)
          (overlay prev.files cf)
          (cf.map (fun kv =>
            if env.remoteHas i kv.1 then Call.updateFile kv.1 else Call.createFile kv.1)) := by
  simp only [create_or_update_repo, hrn, hprev, hre, if_neg]
  simp only [if_false]

theorem create_or_update_notFound (env : Env) (i : Nat) (store : Store) (email task : String)
    (rn : Nat) (cf : FileSet) (hrn : rn ≠ 1)
    (hprev : alGet store (email, task) = none) :
    create_or_update_repo env i store email task rn cf = .error RepoFail.notFound := by
  simp only [create_or_update_repo, hrn, hprev, if_neg]
  simp only [if_false]

theorem filterMap_const_none {α β : Type} (l : List α) :
    l.filterMap (fun _ => (none : Option β)) = [] := by
  induction l with
  | nil => rfl
  | cons x xs ih => simp [List.filterMap_cons, ih]

theorem create_or_update_ok_forward (env : Env) (i : Nat) (store : Store) (email task : String)
    (rn : Nat) (cf : FileSet) (hre : env.repoErr i = none)
    (hok : rn = 1 ∨ (alGet store (email, task)).isSome = true) :
    ∃ out st tr, create_or_update_repo env i store email task rn cf = .ok (out, st, tr) := by
  by_cases hrn : rn = 1
  · subst hrn
    rw [create_or_update_round1_eq env i store email task cf hre, finishRepo_eq]
    exact ⟨_, _, _, rfl⟩
  · rcases hok with h1 | h2
    · exact absurd h1 hrn
    · obtain ⟨prev, hprev⟩ := Option.isSome_iff_exists.mp h2
      rw [create_or_update_later_eq env i store email task rn cf prev hrn hprev hre,
        finishRepo_eq]
      exact ⟨_, _, _, rfl⟩

theorem create_or_update_ok_inv {env : Env} {i : Nat} {store : Store} {email task : String}
    {round_num : Nat} {code_files : FileSet} {out : RepoOut} {st : Store} {tr : List Call}
    (h : create_or_update_repo env i store email task round_num code_files = .ok (out, st, tr)) :
    ∃ stored nm,
      out = ⟨"https://github.com/" ++ env.login ++ "/" ++ nm,
             "https://" ++ env.login ++ ".github.io/" ++ nm ++ "/",
             (env.commitSha i).getD "unknown"⟩ ∧
      st = alSet store (email, task)
        ⟨"https://github.com/" ++ env.login ++ "/" ++ nm,
         (env.commitSha i).getD "unknown",
         "https://" ++ env.login ++ ".github.io/" ++ nm ++ "/",
         env.nowIso i, stored⟩ ∧
      tr.filterMap llmAttRound = [] ∧ tr.filterMap llmExisting = [] ∧
      ((round_num = 1 ∧ stored = code_files ∧ nm = safe_repo_name task (env.timestamp i) ∧
          tr = (Call.createRepo nm ::
            (code_files.map (fun kv => Call.createFile kv.1) ++ [Call.createFile "README.md"]))
            ++ [Call.pages nm]) ∨
       (round_num ≠ 1 ∧ ∃ prev, alGet store (email, task) = some prev ∧
          stored = overlay prev.files code_files ∧ nm = nameOfUrl prev.repo_url)) := by
  by_cases hrn : round_num = 1
  · subst hrn
    cases hre : env.repoErr i with
    | some m =>
      rw [create_or_update_repo] at h
      rw [if_pos rfl, hre] at h
      exact absurd h (by simp)
    | none =>
      rw [create_or_update_round1_eq env i store email task code_files hre, finishRepo_eq] at h
      simp only [Except.ok.injEq, Prod.mk.injEq] at h
      obtain ⟨h1, h2, h3⟩ := h
      refine ⟨code_files, safe_repo_name task (env.timestamp i), h1.symm, h2.symm, ?_, ?_,
        Or.inl ⟨rfl, rfl, rfl, h3.symm⟩⟩
      · rw [← h3]
        simp [List.filterMap_append, List.filterMap_cons, List.filterMap_map,
          llmAttRound, filterMap_const_none]
      · rw [← h3]
        simp [List.filterMap_append, List.filterMap_cons, List.filterMap_map,
          llmExisting, filterMap_const_none]
  · cases hprev : alGet store (email, task) with
    | none =>
      rw [create_or_update_notFound env i store email task round_num code_files hrn hprev] at h
      exact absurd h (by simp)
    | some prev =>
      cases hre : env.repoErr i with
      | some m =>
        rw [create_or_update_repo] at h
        rw [if_neg hrn, hprev, hre] at h
        exact absurd h (by simp)
      | none =>
        rw [create_or_update_later_eq env i store email task round_num code_files prev
          hrn hprev hre, finishRepo_eq] at h
        simp only [Except.ok.injEq, Prod.mk.injEq] at h
        obtain ⟨h1, h2, h3⟩ := h
        refine ⟨overlay prev.files code_files, nameOfUrl prev.repo_url, h1.symm, h2.symm,
          ?_, ?_, Or.inr ⟨hrn, prev, rfl, rfl, rfl⟩⟩
        · rw [← h3]
          simp only [List.filterMap_append, List.filterMap_map, List.filterMap_cons,
            llmAttRound, List.append_eq_nil, List.filterMap_eq_nil_iff]
          constructor
          · intro kv _
            cases hb : env.remoteHas i kv.1 <;> simp [hb, llmAttRound]
          · simp [llmAttRound]
        · rw [← h3]
          simp only [List.filterMap_append, List.filterMap_map, List.filterMap_cons,
            llmExisting, List.append_eq_nil, List.filterMap_eq_nil_iff]
          constructor
          · intro kv _
            cases hb : env.remoteHas i kv.1 <;> simp [hb, llmExisting]
          · simp [llmExisting]

theorem ncallsOf_filterMap_att (evalUrl : Option String) (p : Payload) :
    (ncallsOf evalUrl p).filterMap llmAttRound = [] := by
  cases evalUrl <;> rfl

theorem ncallsOf_filterMap_ex (evalUrl : Option String) (p : Payload) :
    (ncallsOf evalUrl p).filterMap llmExisting = [] := by
  cases evalUrl <;> rfl

theorem processRounds_cons_ok (env : Env) (att : FileSet) (email task nonce : String)
    (evalUrl : Option String) (brief : String) (checks : List String)
    (rest : List (String × List String)) (i : Nat) (ex : FileSet) (store : Store)
    (calls : List Call) (acc : List RoundResult) (s : String) (out : RepoOut)
    (store2 : Store) (rcalls : List Call)
    (hs : env.llmResult i = .ok s)
    (hco : create_or_update_repo env i store email task (i + 1)
        (call_llm_generate_code brief checks att ex (i + 1) s) = .ok (out, store2, rcalls)) :
    processRounds env att email task nonce evalUrl ((brief, checks) :: rest) i ex store calls acc
      = processRounds env att email task nonce evalUrl rest (i + 1)
          (filesAt store2 (email, task)) store2
          (calls ++ Call.llm brief checks att ex (i + 1) ::
            (rcalls ++ ncallsOf evalUrl
              ⟨email, task, i + 1, nonce, out.repo_url, out.pages_url, out.commit_sha⟩))
          (acc ++ [⟨i + 1, out.repo_url, out.pages_url, out.commit_sha⟩]) := by
  simp only [processRounds, hs, hco]

theorem processRounds_nil (env : Env) (att : FileSet) (email task nonce : String)
    (evalUrl : Option String) (i : Nat) (ex : FileSet) (store : Store)
    (calls : List Call) (acc : List RoundResult) :
    processRounds env att email task nonce evalUrl [] i ex store calls acc
      = (.ok acc, store, calls) := rfl

theorem processRounds_cons_err (env : Env) (att : FileSet) (email task nonce : String)
    (evalUrl : Option String) (brief : String) (checks : List String)
    (rest : List (String × List String)) (i : Nat) (ex : FileSet) (store : Store)
    (calls : List Call) (acc : List RoundResult) (s : String) (e : RepoFail)
    (hs : env.llmResult i = .ok s)
    (hco : create_or_update_repo env i store email task (i + 1)
        (call_llm_generate_code brief checks att ex (i + 1) s) = .error e) :
    processRounds env att email task nonce evalUrl ((brief, checks) :: rest) i ex store calls acc
      = (.error (500, "GitHub operation failed: " ++ repoFailMsg e), store,
          calls ++ [Call.llm brief checks att ex (i + 1)]) := by
  simp only [processRounds, hs, hco]

theorem processRounds_spec (env : Env) (att : FileSet) (email task nonce : String)
    (evalUrl : Option String) :
    ∀ (rounds : List (String × List String)) (i : Nat) (ex : FileSet) (store : Store)
      (calls : List Call) (acc : List RoundResult),
    (∀ j, ∃ s, env.llmResult j = .ok s) →
    (∀ j, env.repoErr j = none) →
    (i ≠ 0 → (alGet store (email, task)).isSome = true) →
    ∃ res st tr,
      processRounds env att email task nonce evalUrl rounds i ex store calls acc
        = (.ok (acc ++ res), st, calls ++ tr) ∧
      res.map (fun r => r.round) = natRange (i + 1) rounds.length ∧
      tr.filterMap llmAttRound = (natRange (i + 1) rounds.length).map (fun rn => (att, rn)) := by
  intro rounds
  induction rounds with
  | nil =>
    intro i ex store calls acc _ _ _
    exact ⟨[], store, [], by simp [processRounds, natRange], by simp [natRange],
      by simp [natRange]⟩
  | cons hd rest ih =>
    obtain ⟨brief, checks⟩ := hd
    intro i ex store calls acc hl hr hkey
    obtain ⟨s, hs⟩ := hl i
    have hok : (i + 1) = 1 ∨ (alGet store (email, task)).isSome = true := by
      cases i with
      | zero => exact Or.inl rfl
      | succ k => exact Or.inr (hkey (by simp))
    obtain ⟨out, store2, rcalls, hco⟩ :=
      create_or_update_ok_forward env i store email task (i + 1)
        (call_llm_generate_code brief checks att ex (i + 1) s) (hr i) hok
    have hstep := processRounds_cons_ok env att email task nonce evalUrl brief checks rest
      i ex store calls acc s out store2 rcalls hs hco
    obtain ⟨stored, nm, -, hst2, hfm1, -, -⟩ := create_or_update_ok_inv hco
    have hkey2 : (alGet store2 (email, task)).isSome = true := by
      rw [hst2, alGet_alSet_self]
      rfl
    obtain ⟨res, st, tr, heq, hmap, hfm⟩ := ih (i + 1) (filesAt store2 (email, task)) store2
      (calls ++ Call.llm brief checks att ex (i + 1) ::
        (rcalls ++ ncallsOf evalUrl
          ⟨email, task, i + 1, nonce, out.repo_url, out.pages_url, out.commit_sha⟩))
      (acc ++ [⟨i + 1, out.repo_url, out.pages_url, out.commit_sha⟩])
      hl hr (fun _ => hkey2)
    refine ⟨⟨i + 1, out.repo_url, out.pages_url, out.commit_sha⟩ :: res, st,
      (Call.llm brief checks att ex (i + 1) ::
        (rcalls ++ ncallsOf evalUrl
          ⟨email, task, i + 1, nonce, out.repo_url, out.pages_url, out.commit_sha⟩)) ++ tr,
      ?_, ?_, ?_⟩
    · rw [hstep, heq]
      simp [List.append_assoc]
    · simp only [List.map_cons, hmap, List.length_cons, natRange]
    · simp only [List.filterMap_append, List.filterMap_cons, llmAttRound, hfm1,
        ncallsOf_filterMap_att, hfm, List.length_cons, natRange, List.map_cons,
        List.nil_append, List.append_nil]
      rfl

theorem processRounds_url (env : Env) (att : FileSet) (email task nonce : String)
    (evalUrl : Option String) :
    ∀ (rounds : List (String × List String)) (i : Nat) (ex : FileSet) (store : Store)
      (calls : List Call) (acc : List RoundResult) (nm : List Char),
    (∀ j, ∃ s, env.llmResult j = .ok s) →
    (∀ j, env.repoErr j = none) →
    1 ≤ i →
    (∃ rcd, alGet store (email, task) = some rcd ∧
        rcd.repo_url = "https://github.com/" ++ env.login ++ "/" ++ String.mk nm) →
    nm ≠ [] → ('/' : Char) ∉ nm →
    ∃ res st tr,
      processRounds env att email task nonce evalUrl rounds i ex store calls acc
        = (.ok (acc ++ res), st, calls ++ tr) ∧
      res.map (fun r => r.round) = natRange (i + 1) rounds.length ∧
      ∀ r ∈ res, r.repo_url = "https://github.com/" ++ env.login ++ "/" ++ String.mk nm := by
  intro rounds
  induction rounds with
  | nil =>
    intro i ex store calls acc nm _ _ _ _ _ _
    exact ⟨[], store, [], by simp [processRounds], by simp [natRange], by simp⟩
  | cons hd rest ih =>
    obtain ⟨brief, checks⟩ := hd
    intro i ex store calls acc nm hl hr hi hrcd h1 h2
    obtain ⟨rcd, hrget, hurl⟩ := hrcd
    obtain ⟨s, hs⟩ := hl i
    have hrn : (i + 1) ≠ 1 := by omega
    obtain ⟨out, store2, rcalls, hco⟩ :=
      create_or_update_ok_forward env i store email task (i + 1)
        (call_llm_generate_code brief checks att ex (i + 1) s) (hr i)
        (Or.inr (by rw [hrget]; rfl))
    have hstep := processRounds_cons_ok env att email task nonce evalUrl brief checks rest
      i ex store calls acc s out store2 rcalls hs hco
    obtain ⟨stored, nm2, hout, hst2, -, -, hbr⟩ := create_or_update_ok_inv hco
    rcases hbr with ⟨habs, -, -, -⟩ | ⟨-, prev, hprev, -, hnm2⟩
    · exact absurd habs hrn
    have hpr : prev = rcd := by
      rw [hrget] at hprev
      exact (Option.some.inj hprev).symm
    have hnmeq : nm2 = String.mk nm := by
      rw [hnm2, hpr, hurl]
      exact nameOfUrl_roundtrip env.login nm h1 h2
    have hkey2 : ∃ rcd2, alGet store2 (email, task) = some rcd2 ∧
        rcd2.repo_url = "https://github.com/" ++ env.login ++ "/" ++ String.mk nm := by
      rw [hst2, alGet_alSet_self]
      refine ⟨_, rfl, ?_⟩
      rw [hnmeq]
    obtain ⟨res, st, tr, heq, hmap, hres⟩ := ih (i + 1) (filesAt store2 (email, task)) store2
      (calls ++ Call.llm brief checks att ex (i + 1) ::
        (rcalls ++ ncallsOf evalUrl
          ⟨email, task, i + 1, nonce, out.repo_url, out.pages_url, out.commit_sha⟩))
      (acc ++ [⟨i + 1, out.repo_url, out.pages_url, out.commit_sha⟩])
      nm hl hr (by omega) hkey2 h1 h2
    refine ⟨⟨i + 1, out.repo_url, out.pages_url, out.commit_sha⟩ :: res, st,
      (Call.llm brief checks att ex (i + 1) ::
        (rcalls ++ ncallsOf evalUrl
          ⟨email, task, i + 1, nonce, out.repo_url, out.pages_url, out.commit_sha⟩)) ++ tr,
      ?_, ?_, ?_⟩
    · rw [hstep, heq]
      simp [List.append_assoc]
    · simp only [List.map_cons, hmap, List.length_cons, natRange]
    · intro r hrr
      rcases List.mem_cons.mp hrr with hhd | hmem
      · rw [hhd, hout]
        simp only [hnmeq]
      · exact hres r hmem

theorem handle_task_secret_ok (env : Env) (store : Store) (data : ReqData)
    (hsec : data.secret = some env.secret_key) :
    handle_task env store data
      = processRounds env data.attachments (resolveEmail env data) (resolveTask env data)
          (pyOr data.nonce "") (evalUrlOf data) ((data.brief, data.checks) :: data.round2) 0
          (filesAt store (resolveEmail env data, resolveTask env data)) store [] [] := by
  unfold handle_task
  rw [if_pos hsec]

theorem handle_task_secret_bad (env : Env) (store : Store) (data : ReqData)
    (hsec : data.secret ≠ some env.secret_key) :
    handle_task env store data = (.error (403, "Invalid secret key"), store, []) := by
  unfold handle_task
  rw [if_neg hsec]

theorem alGet_call_llm_attachment (b : String) (c : List String) (att ex : FileSet)
    (rn : Nat) (s : String) (p v : String)
    (hnd : (att.map Prod.fst).Nodup) (hp : alGet att p = some v) :
    alGet (call_llm_generate_code b c att ex rn s) p = some v := by
  unfold call_llm_generate_code
  exact alGet_overlay_of_mem att _ p v hnd (alGet_mem att p v hp)

/-- C2: with a correct secret, reconciling a round numbered 1 when no
Repository Record exists for the identity creates a new record whose file
set is the reconciled one, and reconciling any round numbered 2 or more
with no record fails with the not-found condition (the 404 the coordinator
then wraps into its repository-failure response). -/
theorem C2_round_branches (env : Env) (i : Nat) (store : Store) (email task : String)
    (cf : FileSet) (hkey : alGet store (email, task) = none) :
    (env.repoErr i = none →
      ∃ out st tr rcd, create_or_update_repo env i store email task 1 cf = .ok (out, st, tr) ∧
        alGet st (email, task) = some rcd ∧ rcd.files = cf) ∧
    (∀ rn, 2 ≤ rn →
      create_or_update_repo env i store email task rn cf = .error RepoFail.notFound) := by
  constructor
  · intro hre
    rw [create_or_update_round1_eq env i store email task cf hre, finishRepo_eq]
    exact ⟨_, _, _, _, rfl, alGet_alSet_self _ _ _, rfl⟩
  · intro rn hrn
    exact create_or_update_notFound env i store email task rn cf (by omega) hkey

theorem C2_round_branches_witness :
    ((exEnv.repoErr 0 = none →
      ∃ out st tr rcd,
        create_or_update_repo exEnv 0 [] "a@x.com" "t1" 1 [("index.html", "<h1>hi</h1>")]
          = .ok (out, st, tr) ∧
        alGet st ("a@x.com", "t1") = some rcd ∧ rcd.files = [("index.html", "<h1>hi</h1>")]) ∧
    (∀ rn, 2 ≤ rn →
      create_or_update_repo exEnv 0 [] "a@x.com" "t1" rn [("index.html", "<h1>hi</h1>")]
        = .error RepoFail.notFound)) :=
  C2_round_branches exEnv 0 [] "a@x.com" "t1" [("index.html", "<h1>hi</h1>")] rfl

/-- C3: a request whose secret does not match the configured value is
rejected with the 403 authorization error before any side effect: the
store is returned unchanged and the call trace is empty, so no
generation, repository or notification call occurred. -/
theorem C3_secret_rejected (env : Env) (store : Store) (data : ReqData)
    (hsec : data.secret ≠ some env.secret_key) :
    handle_task env store data = (.error (403, "Invalid secret key"), store, []) := by
  unfold handle_task
  rw [if_neg hsec]

theorem C3_secret_rejected_witness :
    handle_task exEnv exStore1 { exData1 with secret := some "wrong" }
      = (.error (403, "Invalid secret key"), exStore1, []) :=
  C3_secret_rejected exEnv exStore1 { exData1 with secret := some "wrong" } (by decide)

/-- C4 counterexample: a model response that already looks like a full
document (it starts with a doctype declaration) and contains no filename
line is still wrapped in the boilerplate markup rather than used as-is,
because the fallback wraps unconditionally. -/
theorem C4_counterexample :
    ("<!DOCTYPE html>".data).isPrefixOf fullDoc.data = true ∧
    call_llm_generate_code "b" [] [] [] 1 fullDoc
      = [("index.html", wrapHtml fullDoc.data)] ∧
    alGet (call_llm_generate_code "b" [] [] [] 1 fullDoc) "index.html" ≠ some fullDoc := by
  refine ⟨by decide, by decide, by decide⟩

/-- C4 (amended): when no filename line is recognized in the model
response, the entire (stripped) response becomes the content of the single
default file index.html and is always wrapped in the boilerplate markup,
regardless of whether it already looks like a full document; attachments
are still merged last over this fallback. -/
theorem C4_fallback_always_wrapped (brief : String) (checks : List String)
    (attachments existing_files : FileSet) (round_num : Nat) (response : String)
    (h : ∀ l ∈ splitOnChar '\n' (pyStrip response.data), isFilenameLineL l = false) :
    call_llm_generate_code brief checks attachments existing_files round_num response
      = overlay [("index.html", wrapHtml (pyStrip response.data))] attachments :=
  call_llm_no_filename brief checks attachments existing_files round_num response h

theorem C4_fallback_always_wrapped_witness :
    call_llm_generate_code "b" [] [("notes.txt", "n")] [] 1 "just a plain answer"
      = overlay [("index.html", wrapHtml (pyStrip "just a plain answer".data))]
          [("notes.txt", "n")] :=
  C4_fallback_always_wrapped "b" [] [("notes.txt", "n")] [] 1 "just a plain answer"
    (by decide)

/-- C5 counterexample: HTTP 204 is a success status in the usual sense,
but the notifier reports failure for it, because the code tests for
status 200 exactly rather than for the 2xx range. -/
theorem C5_counterexample :
    httpSuccessSpec 204 = true ∧ notify_evaluation (some 204) = false :=
  ⟨rfl, rfl⟩

/-- C5 (amended): the notifier returns success iff the callback POST
returned status exactly 200; a network error (no status) or any other
status, successful or not, yields the failure value.  The function is
total on the POST outcome, so exceptions are swallowed rather than
propagated, and it consumes a single POST outcome: no retry. -/
theorem C5_success_iff_200 (resp : Option Nat) :
    notify_evaluation resp = true ↔ resp = some 200 := by
  cases resp with
  | none => simp [notify_evaluation]
  | some s => simp [notify_evaluation]

/-- C6: attachments win.  First, for any model response, a path carried by
the caller's attachments maps to the attachment's content in the File Set
the generator produces, because attachments are merged last.  Second, the
reconciler stores generated content verbatim: any path of the reconciled
File Set keeps its value in the stored Repository Record, so the stored
content at an attachment path equals the attachment's content. -/
theorem C6_attachments_win :
    (∀ (b : String) (c : List String) (att ex : FileSet) (rn : Nat) (s : String) (p v : String),
      (att.map Prod.fst).Nodup → alGet att p = some v →
      alGet (call_llm_generate_code b c att ex rn s) p = some v) ∧
    (∀ (env : Env) (i : Nat) (store : Store) (email task : String) (rn : Nat) (cf : FileSet)
      (p v : String) (out : RepoOut) (st : Store) (tr : List Call),
      (cf.map Prod.fst).Nodup → alGet cf p = some v →
      create_or_update_repo env i store email task rn cf = .ok (out, st, tr) →
      ∃ rcd, alGet st (email, task) = some rcd ∧ alGet rcd.files p = some v) := by
  constructor
  · intro b c att ex rn s p v hnd hp
    exact alGet_call_llm_attachment b c att ex rn s p v hnd hp
  · intro env i store email task rn cf p v out st tr hnd hp hok
    obtain ⟨stored, nm, -, hst, -, -, hbr⟩ := create_or_update_ok_inv hok
    refine ⟨_, by rw [hst]; exact alGet_alSet_self _ _ _, ?_⟩
    rcases hbr with ⟨-, hstored, -, -⟩ | ⟨-, prev, -, hstored, -⟩
    · show alGet stored p = some v
      rw [hstored]
      exact hp
    · show alGet stored p = some v
      rw [hstored]
      exact alGet_overlay_of_mem cf prev.files p v hnd (alGet_mem cf p v hp)

/-- C8: merge idempotence.  Reconciling the same File Set twice in the
same round, for an identity that already has a Repository Record, stores
the same final File Set as reconciling it once (the hosting and commit
metadata of the two records may differ). -/
theorem C8_merge_idempotent (env : Env) (i j : Nat) (store : Store) (email task : String)
    (rn : Nat) (cf : FileSet) (out1 : RepoOut) (st1 : Store) (tr1 : List Call)
    (hnd : (cf.map Prod.fst).Nodup)
    (hkey : (alGet store (email, task)).isSome = true)
    (hrej : env.repoErr j = none)
    (h1 : create_or_update_repo env i store email task rn cf = .ok (out1, st1, tr1)) :
    ∃ out2 st2 tr2 rcd1 rcd2,
      create_or_update_repo env j st1 email task rn cf = .ok (out2, st2, tr2) ∧
      alGet st1 (email, task) = some rcd1 ∧
      alGet st2 (email, task) = some rcd2 ∧
      rcd2.files = rcd1.files := by
  obtain ⟨stored1, nm1, -, hst1, -, -, hbr1⟩ := create_or_update_ok_inv h1
  have hget1 : ∃ rcd1, alGet st1 (email, task) = some rcd1 ∧ rcd1.files = stored1 := by
    rw [hst1]
    exact ⟨_, alGet_alSet_self _ _ _, rfl⟩
  obtain ⟨rcd1, hget1a, hfiles1⟩ := hget1
  obtain ⟨out2, st2, tr2, h2⟩ := create_or_update_ok_forward env j st1 email task rn cf hrej
    (Or.inr (by rw [hget1a]; rfl))
  obtain ⟨stored2, nm2, -, hst2, -, -, hbr2⟩ := create_or_update_ok_inv h2
  have hget2 : ∃ rcd2, alGet st2 (email, task) = some rcd2 ∧ rcd2.files = stored2 := by
    rw [hst2]
    exact ⟨_, alGet_alSet_self _ _ _, rfl⟩
  obtain ⟨rcd2, hget2a, hfiles2⟩ := hget2
  refine ⟨out2, st2, tr2, rcd1, rcd2, h2, hget1a, hget2a, ?_⟩
  rw [hfiles1, hfiles2]
  rcases hbr1 with ⟨hrn1, hstored1, -, -⟩ | ⟨hrn1, prev1, hprev1, hstored1, -⟩
  · rcases hbr2 with ⟨-, hstored2, -, -⟩ | ⟨habs, -⟩
    · rw [hstored1, hstored2]
    · exact absurd hrn1 habs
  · rcases hbr2 with ⟨habs, -⟩ | ⟨-, prev2, hprev2, hstored2, -⟩
    · exact absurd habs hrn1
    · have hp2 : prev2 = rcd1 := by
        rw [hget1a] at hprev2
        exact (Option.some.inj hprev2).symm
      rw [hstored2, hstored1, hp2, hfiles1, hstored1]
      exact overlay_overlay_self cf prev1.files hnd

/-- C1 counterexample: after a successful round-1 request for identity
(a@x.com, t1), a second request with round set to 2 and a new top-level
brief does not return any round-2 entry at all: its response holds a
single entry labeled round 1, and that entry's repository address is a
new address (a fresh repository name from the later timestamp), not the
address returned by the first request. -/
theorem C1_counterexample :
    ((handle_task exEnv [] exData1).1.toOption.map
        (fun rs => rs.map (fun r => (r.round, r.repo_url)))
      = some [(1, "https://github.com/me/t1-20250101000000")]) ∧
    ((handle_task exEnv2 exStore1 exData2).1.toOption.map
        (fun rs => rs.map (fun r => (r.round, r.repo_url)))
      = some [(1, "https://github.com/me/t1-20250101000500")]) ∧
    ("https://github.com/me/t1-20250101000500"
      ≠ "https://github.com/me/t1-20250101000000") := by
  refine ⟨by decide, by decide, by decide⟩

/-- C1 (amended): a second POST with round 2 is processed as a fresh round
1 and creates a new repository (see the counterexample); the same
repository is reused only across the rounds of a single request, where
the round-2 brief travels in the round2 list.  Within one request with a
valid secret, every result entry, the round-2 entry included, reports the
repository address created by round 1, built from the login plus the
sanitized task name and the round-1 timestamp. -/
theorem C1_amended (env : Env) (store : Store) (data : ReqData)
    (hsec : data.secret = some env.secret_key)
    (hl : ∀ j, ∃ s, env.llmResult j = .ok s)
    (hr : ∀ j, env.repoErr j = none)
    (hts : ('/' : Char) ∉ (env.timestamp 0).data) :
    ∃ res st tr, handle_task env store data = (.ok res, st, tr) ∧
      res.map (fun r => r.round) = natRange 1 (data.round2.length + 1) ∧
      ∀ r ∈ res, r.repo_url = "https://github.com/" ++ env.login ++ "/"
        ++ safe_repo_name (resolveTask env data) (env.timestamp 0) := by
  obtain ⟨s, hs⟩ := hl 0
  obtain ⟨out, store2, rcalls, hco⟩ :=
    create_or_update_ok_forward env 0 store (resolveEmail env data) (resolveTask env data)
      (0 + 1) (call_llm_generate_code data.brief data.checks data.attachments
        (filesAt store (resolveEmail env data, resolveTask env data)) (0 + 1) s)
      (hr 0) (Or.inl rfl)
  have hstep := processRounds_cons_ok env data.attachments (resolveEmail env data)
    (resolveTask env data) (pyOr data.nonce "") (evalUrlOf data) data.brief data.checks
    data.round2 0 (filesAt store (resolveEmail env data, resolveTask env data)) store [] [] s
    out store2 rcalls hs hco
  obtain ⟨stored, nm2, hout, hst2, -, -, hbr⟩ := create_or_update_ok_inv hco
  rcases hbr with ⟨-, -, hnm2, -⟩ | ⟨habs, -⟩
  swap
  · exact absurd rfl habs
  have hkey2 : ∃ rcd2,
      alGet store2 (resolveEmail env data, resolveTask env data) = some rcd2 ∧
      rcd2.repo_url = "https://github.com/" ++ env.login ++ "/"
        ++ String.mk (safe_repo_name (resolveTask env data) (env.timestamp 0)).data := by
    rw [hst2]
    refine ⟨_, alGet_alSet_self _ _ _, ?_⟩
    rw [hnm2]
  obtain ⟨res, st, tr, heq, hmap, hres⟩ := processRounds_url env data.attachments
    (resolveEmail env data) (resolveTask env data) (pyOr data.nonce "") (evalUrlOf data)
    data.round2 (0 + 1) (filesAt store2 (resolveEmail env data, resolveTask env data)) store2
    ([] ++ Call.llm data.brief data.checks data.attachments
        (filesAt store (resolveEmail env data, resolveTask env data)) (0 + 1) ::
      (rcalls ++ ncallsOf (evalUrlOf data)
        ⟨resolveEmail env data, resolveTask env data, 0 + 1, pyOr data.nonce "",
          out.repo_url, out.pages_url, out.commit_sha⟩))
    ([] ++ [⟨0 + 1, out.repo_url, out.pages_url, out.commit_sha⟩])
    (safe_repo_name (resolveTask env data) (env.timestamp 0)).data
    hl hr (le_refl 1) hkey2 (safe_repo_name_ne_nil _ _)
    (safe_repo_name_no_slash _ _ hts)
  refine ⟨⟨0 + 1, out.repo_url, out.pages_url, out.commit_sha⟩ :: res, st,
    (Call.llm data.brief data.checks data.attachments
        (filesAt store (resolveEmail env data, resolveTask env data)) (0 + 1) ::
      (rcalls ++ ncallsOf (evalUrlOf data)
        ⟨resolveEmail env data, resolveTask env data, 0 + 1, pyOr data.nonce "",
          out.repo_url, out.pages_url, out.commit_sha⟩)) ++ tr, ?_, ?_, ?_⟩
  · rw [handle_task_secret_ok env store data hsec, hstep, heq]
    simp [List.append_assoc]
  · simp only [List.map_cons, hmap, List.length_cons, natRange, Nat.zero_add]
  · intro r hrr
    rcases List.mem_cons.mp hrr with hhd | hmem
    · rw [hhd, hout, hnm2]
    · exact hres r hmem

/-- C7: in a request carrying a second round in its round2 list, the
existing File Set handed to round 2's generation call (as recorded in the
call trace) is exactly the File Set of the Repository Record stored by
round 1's reconciliation, never the file state from before round 1: the
trace's generation calls are round 1 on the pre-request state and round 2
on the stored record's files. -/
theorem C7_round2_existing (env : Env) (store : Store) (data : ReqData)
    (b2 : String) (c2 : List String) (s0 s1 : String)
    (hsec : data.secret = some env.secret_key)
    (h2 : data.round2 = [(b2, c2)])
    (hs0 : env.llmResult 0 = .ok s0)
    (hs1 : env.llmResult 1 = .ok s1)
    (hr0 : env.repoErr 0 = none) :
    ∀ out1 st1 tr1 rcd,
      create_or_update_repo env 0 store (resolveEmail env data) (resolveTask env data) 1
        (call_llm_generate_code data.brief data.checks data.attachments
          (filesAt store (resolveEmail env data, resolveTask env data)) 1 s0)
        = .ok (out1, st1, tr1) →
      alGet st1 (resolveEmail env data, resolveTask env data) = some rcd →
      (handle_task env store data).2.2.filterMap llmExisting
        = [(1, filesAt store (resolveEmail env data, resolveTask env data)),
           (2, rcd.files)] := by
  intro out1 st1 tr1 rcd hco1 hrcd
  have hex2 : filesAt st1 (resolveEmail env data, resolveTask env data) = rcd.files := by
    unfold filesAt
    rw [hrcd]
  obtain ⟨stored1, nm1, -, -, -, hfm1ex, -⟩ := create_or_update_ok_inv hco1
  rw [handle_task_secret_ok env store data hsec, h2]
  have hstep1 := processRounds_cons_ok env data.attachments (resolveEmail env data)
    (resolveTask env data) (pyOr data.nonce "") (evalUrlOf data) data.brief data.checks
    [(b2, c2)] 0 (filesAt store (resolveEmail env data, resolveTask env data)) store [] [] s0
    out1 st1 tr1 hs0 hco1
  rw [hstep1]
  cases hco2 : create_or_update_repo env (0 + 1) st1 (resolveEmail env data)
      (resolveTask env data) ((0 + 1) + 1) (call_llm_generate_code b2 c2 data.attachments
        (filesAt st1 (resolveEmail env data, resolveTask env data)) ((0 + 1) + 1) s1) with
  | error e =>
    rw [processRounds_cons_err env data.attachments (resolveEmail env data)
      (resolveTask env data) (pyOr data.nonce "") (evalUrlOf data) b2 c2 [] (0 + 1)
      (filesAt st1 (resolveEmail env data, resolveTask env data)) st1
      ([] ++ Call.llm data.brief data.checks data.attachments
          (filesAt store (resolveEmail env data, resolveTask env data)) (0 + 1) ::
        (tr1 ++ ncallsOf (evalUrlOf data)
          (Payload.mk (resolveEmail env data) (resolveTask env data) (0 + 1)
            (pyOr data.nonce "") out1.repo_url out1.pages_url out1.commit_sha)))
      ([] ++ [RoundResult.mk (0 + 1) out1.repo_url out1.pages_url out1.commit_sha])
      s1 e hs1 hco2]
    simp [List.filterMap_append, List.filterMap_cons, llmExisting, hfm1ex,
      ncallsOf_filterMap_ex, hex2]
  | ok trip =>
    obtain ⟨out2, st2, tr2⟩ := trip
    have hstep2 := processRounds_cons_ok env data.attachments (resolveEmail env data)
      (resolveTask env data) (pyOr data.nonce "") (evalUrlOf data) b2 c2 [] (0 + 1)
      (filesAt st1 (resolveEmail env data, resolveTask env data)) st1
      ([] ++ Call.llm data.brief data.checks data.attachments
          (filesAt store (resolveEmail env data, resolveTask env data)) (0 + 1) ::
        (tr1 ++ ncallsOf (evalUrlOf data)
          (Payload.mk (resolveEmail env data) (resolveTask env data) (0 + 1)
            (pyOr data.nonce "") out1.repo_url out1.pages_url out1.commit_sha)))
      ([] ++ [RoundResult.mk (0 + 1) out1.repo_url out1.pages_url out1.commit_sha]) s1
      out2 st2 tr2 hs1 hco2
    rw [hstep2, processRounds_nil]
    obtain ⟨-, -, -, -, -, hfm2ex, -⟩ := create_or_update_ok_inv hco2
    simp [List.filterMap_append, List.filterMap_cons, llmExisting, hfm1ex, hfm2ex,
      ncallsOf_filterMap_ex, hex2]

/-- C9: the top-level round field of the request has no effect on
processing: replacing it by any integer leaves the output (response,
store, call trace) unchanged.  Rounds are numbered by position in the
briefs list, the top-level brief always being processed as round number 1
through the repository-creation branch: with a valid secret the response
numbers its entries 1, 2, ... and the trace contains a create-repository
call. -/
theorem C9_round_field_ignored (env : Env) (store : Store) (data : ReqData) (n : Int) :
    handle_task env store (setRound data n) = handle_task env store data ∧
    ((∀ j, ∃ s, env.llmResult j = .ok s) → (∀ j, env.repoErr j = none) →
      data.secret = some env.secret_key →
      ∃ res st tr, handle_task env store data = (.ok res, st, tr) ∧
        res.map (fun r => r.round) = natRange 1 (data.round2.length + 1) ∧
        ∃ nm, Call.createRepo nm ∈ tr) := by
  constructor
  · rfl
  · intro hl hr hsec
    obtain ⟨s, hs⟩ := hl 0
    obtain ⟨out, store2, rcalls, hco⟩ := create_or_update_ok_forward env 0 store
      (resolveEmail env data) (resolveTask env data) (0 + 1)
      (call_llm_generate_code data.brief data.checks data.attachments
        (filesAt store (resolveEmail env data, resolveTask env data)) (0 + 1) s)
      (hr 0) (Or.inl rfl)
    have hstep := processRounds_cons_ok env data.attachments (resolveEmail env data)
      (resolveTask env data) (pyOr data.nonce "") (evalUrlOf data) data.brief data.checks
      data.round2 0 (filesAt store (resolveEmail env data, resolveTask env data)) store [] [] s
      out store2 rcalls hs hco
    obtain ⟨stored, nm2, -, hst2, -, -, hbr⟩ := create_or_update_ok_inv hco
    rcases hbr with ⟨-, -, -, htr1⟩ | ⟨habs, -⟩
    swap
    · exact absurd rfl habs
    have hkey2 : (alGet store2 (resolveEmail env data, resolveTask env data)).isSome = true := by
      rw [hst2, alGet_alSet_self]
      rfl
    obtain ⟨res, st, tr, heq, hmap, -⟩ := processRounds_spec env data.attachments
      (resolveEmail env data) (resolveTask env data) (pyOr data.nonce "") (evalUrlOf data)
      data.round2 (0 + 1) (filesAt store2 (resolveEmail env data, resolveTask env data)) store2
      ([] ++ Call.llm data.brief data.checks data.attachments
          (filesAt store (resolveEmail env data, resolveTask env data)) (0 + 1) ::
        (rcalls ++ ncallsOf (evalUrlOf data)
          ⟨resolveEmail env data, resolveTask env data, 0 + 1, pyOr data.nonce "",
            out.repo_url, out.pages_url, out.commit_sha⟩))
      ([] ++ [⟨0 + 1, out.repo_url, out.pages_url, out.commit_sha⟩])
      hl hr (fun _ => hkey2)
    refine ⟨⟨0 + 1, out.repo_url, out.pages_url, out.commit_sha⟩ :: res, st,
      (Call.llm data.brief data.checks data.attachments
          (filesAt store (resolveEmail env data, resolveTask env data)) (0 + 1) ::
        (rcalls ++ ncallsOf (evalUrlOf data)
          ⟨resolveEmail env data, resolveTask env data, 0 + 1, pyOr data.nonce "",
            out.repo_url, out.pages_url, out.commit_sha⟩)) ++ tr, ?_, ?_, ?_⟩
    · rw [handle_task_secret_ok env store data hsec, hstep, heq]
      simp [List.append_assoc]
    · simp only [List.map_cons, hmap, List.length_cons, natRange, Nat.zero_add]
    · refine ⟨nm2, ?_⟩
      rw [htr1]
      simp

/-- C10: the single top-level attachments mapping is merged into the File
Set generated for every round of the request, not only the first: with a
valid secret, the trace shows one generation call per round, each carrying
the request's attachments, and any generation call carrying those
attachments produces a File Set mapping each attachment path to the
attachment's content. -/
theorem C10_attachments_every_round (env : Env) (store : Store) (data : ReqData)
    (p v : String)
    (hl : ∀ j, ∃ s, env.llmResult j = .ok s)
    (hr : ∀ j, env.repoErr j = none)
    (hsec : data.secret = some env.secret_key)
    (hnd : (data.attachments.map Prod.fst).Nodup)
    (hp : alGet data.attachments p = some v) :
    ∃ res st tr, handle_task env store data = (.ok res, st, tr) ∧
      tr.filterMap llmAttRound
        = (natRange 1 (data.round2.length + 1)).map (fun rn => (data.attachments, rn)) ∧
      ∀ b c ex rn s, alGet (call_llm_generate_code b c data.attachments ex rn s) p = some v := by
  obtain ⟨res, st, tr, heq, hmap, hfm⟩ := processRounds_spec env data.attachments
    (resolveEmail env data) (resolveTask env data) (pyOr data.nonce "") (evalUrlOf data)
    ((data.brief, data.checks) :: data.round2) 0
    (filesAt store (resolveEmail env data, resolveTask env data)) store [] []
    hl hr (fun h => absurd rfl h)
  refine ⟨res, st, tr, ?_, ?_, ?_⟩
  · rw [handle_task_secret_ok env store data hsec, heq]
    simp
  · rw [hfm]
    simp [natRange]
  · intro b c ex rn s
    exact alGet_call_llm_attachment b c data.attachments ex rn s p v hnd hp

theorem C1_amended_witness :
    ∃ res st tr, handle_task exEnv [] exDataR2 = (.ok res, st, tr) ∧
      res.map (fun r => r.round) = natRange 1 (exDataR2.round2.length + 1) ∧
      ∀ r ∈ res, r.repo_url = "https://github.com/" ++ exEnv.login ++ "/"
        ++ safe_repo_name (resolveTask exEnv exDataR2) (exEnv.timestamp 0) :=
  C1_amended exEnv [] exDataR2 rfl (fun _ => ⟨"index.html\n<h1>hi</h1>", rfl⟩)
    (fun _ => rfl) (by decide)

theorem C6_attachments_win_witness :
    alGet (call_llm_generate_code "b" [] [("notes.txt", "n")] [] 1 "index.html\n<h1>hi</h1>")
      "notes.txt" = some "n" ∧
    (∃ rcd,
      alGet [((("e" : String), ("t" : String)),
        RepoRecord.mk "https://github.com/me/t-20250101000000" "abc123"
          "https://me.github.io/t-20250101000000/" "2025-01-01T00:00:00"
          [("notes.txt", "n")])] ("e", "t") = some rcd ∧
      alGet rcd.files "notes.txt" = some "n") := by
  constructor
  · exact C6_attachments_win.1 "b" [] [("notes.txt", "n")] [] 1 "index.html\n<h1>hi</h1>"
      "notes.txt" "n" (by decide) (by decide)
  · exact C6_attachments_win.2 exEnv 0 [] "e" "t" 1 [("notes.txt", "n")] "notes.txt" "n"
      (RepoOut.mk "https://github.com/me/t-20250101000000"
        "https://me.github.io/t-20250101000000/" "abc123")
      [(("e", "t"), RepoRecord.mk "https://github.com/me/t-20250101000000" "abc123"
        "https://me.github.io/t-20250101000000/" "2025-01-01T00:00:00" [("notes.txt", "n")])]
      [Call.createRepo "t-20250101000000", Call.createFile "notes.txt",
        Call.createFile "README.md", Call.pages "t-20250101000000"]
      (by decide) (by decide) rfl

theorem C7_round2_existing_witness :
    (handle_task exEnv [] exDataR2).2.2.filterMap llmExisting
      = [(1, filesAt [] (resolveEmail exEnv exDataR2, resolveTask exEnv exDataR2)),
         (2, (RepoRecord.mk "https://github.com/me/t1-20250101000000" "abc123"
            "https://me.github.io/t1-20250101000000/" "2025-01-01T00:00:00"
            [("index.html", "<h1>hi</h1>")]).files)] :=
  C7_round2_existing exEnv [] exDataR2 "fix the bug" [] "index.html\n<h1>hi</h1>"
    "index.html\n<h1>hi</h1>" rfl rfl rfl rfl rfl
    (RepoOut.mk "https://github.com/me/t1-20250101000000"
      "https://me.github.io/t1-20250101000000/" "abc123")
    [(("a@x.com", "t1"), RepoRecord.mk "https://github.com/me/t1-20250101000000" "abc123"
      "https://me.github.io/t1-20250101000000/" "2025-01-01T00:00:00"
      [("index.html", "<h1>hi</h1>")])]
    [Call.createRepo "t1-20250101000000", Call.createFile "index.html",
      Call.createFile "README.md", Call.pages "t1-20250101000000"]
    (RepoRecord.mk "https://github.com/me/t1-20250101000000" "abc123"
      "https://me.github.io/t1-20250101000000/" "2025-01-01T00:00:00"
      [("index.html", "<h1>hi</h1>")])
    rfl rfl

theorem C8_merge_idempotent_witness :
    ∃ out2 st2 tr2 rcd1 rcd2,
      create_or_update_repo exEnv 1
        [(("e", "t"), RepoRecord.mk "https://github.com/me/t-20250101000000" "abc123"
          "https://me.github.io/t-20250101000000/" "2025-01-01T00:00:00"
          [("notes.txt", "n"), ("a.html", "new")])]
        "e" "t" 2 [("a.html", "new")] = .ok (out2, st2, tr2) ∧
      alGet [(("e", "t"), RepoRecord.mk "https://github.com/me/t-20250101000000" "abc123"
          "https://me.github.io/t-20250101000000/" "2025-01-01T00:00:00"
          [("notes.txt", "n"), ("a.html", "new")])] ("e", "t") = some rcd1 ∧
      alGet st2 ("e", "t") = some rcd2 ∧
      rcd2.files = rcd1.files :=
  C8_merge_idempotent exEnv 0 1
    [(("e", "t"), RepoRecord.mk "https://github.com/me/t-20250101000000" "abc123"
      "https://me.github.io/t-20250101000000/" "2025-01-01T00:00:00" [("notes.txt", "n")])]
    "e" "t" 2 [("a.html", "new")]
    (RepoOut.mk "https://github.com/me/t-20250101000000"
      "https://me.github.io/t-20250101000000/" "abc123")
    [(("e", "t"), RepoRecord.mk "https://github.com/me/t-20250101000000" "abc123"
      "https://me.github.io/t-20250101000000/" "2025-01-01T00:00:00"
      [("notes.txt", "n"), ("a.html", "new")])]
    [Call.updateFile "a.html", Call.pages "t-20250101000000"]
    (by decide) (by decide) rfl rfl

theorem C9_round_field_ignored_witness :
    (handle_task exEnv [] (setRound exData1 7) = handle_task exEnv [] exData1) ∧
    (∃ res st tr, handle_task exEnv [] exData1 = (.ok res, st, tr) ∧
      res.map (fun r => r.round) = natRange 1 (exData1.round2.length + 1) ∧
      ∃ nm, Call.createRepo nm ∈ tr) :=
  ⟨(C9_round_field_ignored exEnv [] exData1 7).1,
   (C9_round_field_ignored exEnv [] exData1 7).2
     (fun _ => ⟨"index.html\n<h1>hi</h1>", rfl⟩) (fun _ => rfl) rfl⟩

theorem C10_attachments_every_round_witness :
    ∃ res st tr, handle_task exEnv [] exDataAtt = (.ok res, st, tr) ∧
      tr.filterMap llmAttRound
        = (natRange 1 (exDataAtt.round2.length + 1)).map
            (fun rn => (exDataAtt.attachments, rn)) ∧
      ∀ b c ex rn s,
        alGet (call_llm_generate_code b c exDataAtt.attachments ex rn s) "data.json"
          = some "42" :=
  C10_attachments_every_round exEnv [] exDataAtt "data.json" "42"
    (fun _ => ⟨"index.html\n<h1>hi</h1>", rfl⟩) (fun _ => rfl) rfl (by decide) (by decide)
